import Mathlib

/-!
Verification of the wp-analyzer parsing and analytics engine.

The development shallowly embeds the core of the engine:
message data model (`Message`, `ContentInfo`, `CallInfo`, `PollInfo`),
the scorer (`calcPoints` from src/utils/calc-points.ts), the content
classifier (`parseContent` from src/utils/content-parser.ts), the
tokenizer and extractor (src/utils/message-parser.ts) and the parts of
the stats engine (src/utils/stats.ts) the verified properties refer to.

JavaScript numbers are modelled as rationals (the involved computations
are exact on the inputs in scope), strings as lists of characters, and
instants as integer milliseconds since the epoch with local time
identified with UTC (no DST model; calendar-day arithmetic is exact in
this model).
-/

namespace WpAnalyzer

/-- Strings are modelled as lists of characters (`String.data`). -/
abbrev Str := List Char

/-- Message content type (content-parser.ts `ContentType`). -/
inductive ContentType where
  | text | image | video | videoNote | audio | document | sticker
  | contact | gif | call | poll
deriving DecidableEq, Repr

/-- Message status (content-parser.ts `MessageStatus`). -/
inductive MessageStatus where
  | deleted | edited | active
deriving DecidableEq, Repr

/-- Voice or video call (content-parser.ts `CallInfo.type`). -/
inductive CallKind where
  | voice | video
deriving DecidableEq, Repr

/-- Call details (content-parser.ts `CallInfo`); the three data fields
are nullable because some call phrasings carry no information. The
parser only ever produces integer values for `joined` and `duration`,
so they are modelled as integers (the scorer casts them to ℚ). -/
structure CallInfo where
  ctype : CallKind
  missed : Option Bool
  joined : Option ℤ
  duration : Option ℤ
deriving DecidableEq, Repr

/-- One poll option with its vote count (content-parser.ts `PollInfo`). -/
structure PollOption where
  label : Str
  votes : ℕ
deriving DecidableEq, Repr

/-- Poll details (content-parser.ts `PollInfo`). -/
structure PollInfo where
  question : Str
  options : List PollOption
deriving DecidableEq, Repr

/-- Classified message content (content-parser.ts `ContentInfo`). -/
structure ContentInfo where
  type : ContentType
  content : Option Str
  status : MessageStatus
  call : Option CallInfo
  poll : Option PollInfo
  mentions : List Str
deriving DecidableEq, Repr

/-- A fully parsed message (data.ts `Message`): author, timestamp in
milliseconds since the epoch, and classified content. -/
structure Message where
  author : Str
  timestamp : ℤ
  message : ContentInfo
deriving DecidableEq, Repr

/-! ## Scorer (src/utils/calc-points.ts) -/

/-- Source `POINTS_CONFIG.base`: base points for each message type. -/
def basePoints : ContentType → ℚ
  | .text => 1
  | .image => 2
  | .video => 5/2
  | .audio => 7/4
  | .document => 2
  | .sticker => 1
  | .contact => 1/2
  | .gif => 1
  | .call => 1
  | .poll => 2
  | .videoNote => 2

/-- Source `POINTS_CONFIG.textPerChar`. -/
def textPerChar : ℚ := 1/100
/-- Source `POINTS_CONFIG.textMaxChars`. -/
def textMaxChars : ℕ := 500
/-- Source `POINTS_CONFIG.pollPerOption`. -/
def pollPerOption : ℚ := 3/10
/-- Source `POINTS_CONFIG.pollPerChar`. -/
def pollPerChar : ℚ := 1/200
/-- Source `POINTS_CONFIG.pollMaxChars`. -/
def pollMaxChars : ℕ := 200
/-- Source `POINTS_CONFIG.callPerMinute`. -/
def callPerMinute : ℚ := 1/2
/-- Source `POINTS_CONFIG.callPerParticipant`. -/
def callPerParticipant : ℚ := 1/5
/-- Source `POINTS_CONFIG.callMissedPenalty`. -/
def callMissedPenalty : ℚ := -(1/2)
/-- Source `POINTS_CONFIG.contentPerChar`. -/
def contentPerChar : ℚ := 1/500
/-- Source `POINTS_CONFIG.contentMaxChars`. -/
def contentMaxChars : ℕ := 300
/-- Source `POINTS_CONFIG.minPoints`. -/
def minPoints : ℚ := 1/2
/-- Source `POINTS_CONFIG.maxPoints`. -/
def maxPoints : ℚ := 10

/-- Source `POINTS_CONFIG.status`: status modifiers (active 1.0, edited 1.1,
deleted -0.2). -/
def statusModifier : MessageStatus → ℚ
  | .active => 1
  | .edited => 11/10
  | .deleted => -(1/5)

/-- Source `clampPoints`: clamp points between `minPoints` and `maxPoints`. -/
def clampPoints (points : ℚ) : ℚ :=
  max minPoints (min maxPoints points)

/-- Source `calculateTextPoints`: character-count points for text messages
(`!content` is JS-falsy for both null and the empty string). -/
def calculateTextPoints : Option Str → ℚ
  | none => 0
  | some content =>
    if content.isEmpty then 0
    else (min content.length textMaxChars : ℕ) * textPerChar

/-- Source `calculatePollPoints`: option-count and question-length points. -/
def calculatePollPoints : Option PollInfo → ℚ
  | none => 0
  | some poll =>
    let optionPts : ℚ := (poll.options.length : ℚ) * pollPerOption
    let questionPts : ℚ :=
      if poll.question.isEmpty then 0
      else (min poll.question.length pollMaxChars : ℕ) * pollPerChar
    optionPts + questionPts

/-- Source `calculateCallPoints`: duration, participant and missed-call points
(the JS truthiness guards skip the value 0, which contributes 0 anyway). -/
def calculateCallPoints : Option CallInfo → ℚ
  | none => 0
  | some call =>
    let durationPts : ℚ :=
      match call.duration with
      | some d => if d = 0 then 0 else (d : ℚ) / 60 * callPerMinute
      | none => 0
    let joinedPts : ℚ :=
      match call.joined with
      | some j => if j = 0 then 0 else (j : ℚ) * callPerParticipant
      | none => 0
    let missedPts : ℚ := if call.missed = some true then callMissedPenalty else 0
    durationPts + joinedPts + missedPts

/-- Source `calculateContentBonus`: content-length bonus for other types. -/
def calculateContentBonus : Option Str → ℚ
  | none => 0
  | some content =>
    if content.isEmpty then 0
    else (min content.length contentMaxChars : ℕ) * contentPerChar

/-- The `switch (message.type)` block of `calcPoints` computing the
type-specific additional points. -/
def additionalPoints (message : ContentInfo) : ℚ :=
  match message.type with
  | .text => calculateTextPoints message.content
  | .poll => calculatePollPoints message.poll
  | .call => calculateCallPoints message.call
  | _ => calculateContentBonus message.content

/-- Source `calcPoints`: deleted messages short-circuit to the fixed status
value; otherwise `(base + additional) * statusModifier`, clamped. -/
def calcPoints (msg : Message) : ℚ :=
  let message := msg.message
  if message.status = .deleted then statusModifier .deleted
  else
    clampPoints ((basePoints message.type + additionalPoints message) * statusModifier message.status)

/-! ### Scorer lemmas -/

theorem clampPoints_bounds (x : ℚ) :
    minPoints ≤ clampPoints x ∧ clampPoints x ≤ maxPoints := by
  refine ⟨le_max_left _ _, max_le ?_ (min_le_left _ _)⟩
  norm_num [minPoints, maxPoints]

theorem calcPoints_of_deleted (msg : Message)
    (h : msg.message.status = .deleted) : calcPoints msg = -(1/5) := by
  simp [calcPoints, h, statusModifier]

theorem calcPoints_bounds_of_not_deleted (msg : Message)
    (h : msg.message.status ≠ .deleted) :
    minPoints ≤ calcPoints msg ∧ calcPoints msg ≤ maxPoints := by
  rw [calcPoints]
  simp only [h, if_false, if_neg h]
  exact clampPoints_bounds _

/-- A plain active text message, used as a concrete witness input. -/
def sampleTextMsg : Message :=
  ⟨"Alice".data, 0, ⟨.text, some "hello".data, .active, none, none, []⟩⟩

/-- A deleted text message, used as a concrete counterexample input. -/
def sampleDeletedMsg : Message :=
  ⟨"Alice".data, 0, ⟨.text, none, .deleted, none, none, []⟩⟩

/-- C10: for every message whose status is not deleted, regardless of
type, content, poll or call data, `calcPoints` returns a value in
[0.5, 10]: the clamp is applied on every non-deleted evaluation path. -/
theorem calcPoints_nondeleted_clamped (msg : Message)
    (h : msg.message.status ≠ .deleted) :
    1/2 ≤ calcPoints msg ∧ calcPoints msg ≤ 10 := by
  have hb := calcPoints_bounds_of_not_deleted msg h
  simpa [minPoints, maxPoints] using hb

/-- Witness for C10 at a concrete active text message. -/
theorem calcPoints_nondeleted_clamped_witness :
    1/2 ≤ calcPoints sampleTextMsg ∧ calcPoints sampleTextMsg ≤ 10 :=
  calcPoints_nondeleted_clamped sampleTextMsg (by decide)

/-- C1 counterexample: a deleted message scores the fixed value -0.2,
which is strictly below `minPoints = 0.5`, so the output of the scorer
is not clamped to [minPoints, maxPoints] for deleted messages. -/
theorem calcPoints_deleted_unclamped :
    calcPoints sampleDeletedMsg = -(1/5) ∧
    ¬ minPoints ≤ calcPoints sampleDeletedMsg := by
  have h : calcPoints sampleDeletedMsg = -(1/5) := by
    simp [calcPoints, sampleDeletedMsg, statusModifier]
  refine ⟨h, ?_⟩
  rw [h]
  norm_num [minPoints]

/-- C1 (amended): for every message with status other than deleted, the
scorer output is clamped to [minPoints, maxPoints] = [0.5, 10]; a
deleted message instead short-circuits to the fixed value -0.2, which
lies below `minPoints`. -/
theorem calcPoints_clamp_amended :
    (∀ msg : Message, msg.message.status = .deleted → calcPoints msg = -(1/5)) ∧
    (∀ msg : Message, msg.message.status ≠ .deleted →
      minPoints ≤ calcPoints msg ∧ calcPoints msg ≤ maxPoints) :=
  ⟨fun msg h => calcPoints_of_deleted msg h,
   fun msg h => calcPoints_bounds_of_not_deleted msg h⟩

/-- Witness for C1 (amended) at concrete messages. -/
theorem calcPoints_clamp_amended_witness :
    calcPoints sampleDeletedMsg = -(1/5) ∧
    (minPoints ≤ calcPoints sampleTextMsg ∧ calcPoints sampleTextMsg ≤ maxPoints) :=
  ⟨calcPoints_clamp_amended.1 sampleDeletedMsg (by decide),
   calcPoints_clamp_amended.2 sampleTextMsg (by decide)⟩

/-! ## String utilities (models of the JS string operations used) -/

/-- Whitespace characters relevant to JS `String.prototype.trim` on the
inputs in scope. -/
def isWS (c : Char) : Bool :=
  c == ' ' || c == '\t' || c == '\n' || c == '\r'

/-- Model of JS `trim`: strip leading and trailing whitespace. -/
def jsTrim (l : Str) : Str :=
  ((l.dropWhile isWS).reverse.dropWhile isWS).reverse

/-- Model of the regex character class `\d`. -/
def isDigitChar (c : Char) : Bool :=
  '0' ≤ c && c ≤ '9'

/-- Numeric value of a list of decimal digit characters (model of
`parseInt`/`Number` on an all-digit string). -/
def parseNatDigits (l : Str) : ℕ :=
  l.foldl (fun acc c => acc * 10 + (c.toNat - 48)) 0

/-- Decide whether `suffix` is a suffix of `l` (model of an
end-anchored literal regex such as `/image omitted$/`). -/
def endsWithL (suffix l : Str) : Bool :=
  suffix.isSuffixOf l

/-- Model of `/.+ <literal>$/`: the string ends with the literal and the
character immediately before the literal exists and is not a newline
(the dot does not match newlines). -/
def endsWithCharBefore (suffix l : Str) : Bool :=
  endsWithL suffix l &&
    match l.length - suffix.length with
    | 0 => false
    | n + 1 =>
      match l.get? n with
      | some c => !(c == '\n')
      | none => false

/-- Decide whether `kw` occurs in `l` with at least one character before
and after it (the `.+ kw .+` shape of an anchored regex; the
no-newline side condition is checked separately). -/
def properInfixKw (kw l : Str) : Bool :=
  (List.range l.length).any fun i =>
    decide (0 < i) && kw.isPrefixOf (l.drop i) && decide (i + kw.length < l.length)

/-- True when the string contains no newline (so `.`-only regexes
anchored with both `^` and `$` can span it). -/
def noNewline (l : Str) : Bool :=
  !(l.contains '\n')

/-! ## Content classifier (src/utils/content-parser.ts) -/

/-- Model of system regex `/^.+ (?:deleted|changed|removed|added) .+$/`:
the whole string (hence newline-free) with one of the keywords strictly
inside it. -/
def systemRegex1 (l : Str) : Bool :=
  noNewline l &&
    ([" deleted ", " changed ", " removed ", " added "].any fun kw =>
      properInfixKw kw.data l)

/-- Model of system regex `/^.* left$/`. -/
def systemRegex2 (l : Str) : Bool :=
  endsWithL " left".data l && noNewline l

/-- Model of system regex `/.+ joined using your invite$/`. -/
def systemRegex3 (l : Str) : Bool :=
  endsWithCharBefore " joined using your invite".data l

/-- Source `systemRegexes.some(r => r.test(content))`. -/
def systemTest (l : Str) : Bool :=
  systemRegex1 l || systemRegex2 l || systemRegex3 l

/-- Source `typeRegexes` loop: ordered first-match type detection.  The
source iterates over a literal list of (type, regex) pairs; the ordered
if-chain here is that first-match loop unrolled. -/
def findType (l : Str) : Option ContentType :=
  if endsWithL "image omitted".data l then some .image
  else if endsWithL "video omitted".data l then some .video
  else if endsWithL "video note omitted".data l then some .videoNote
  else if endsWithL "audio omitted".data l then some .audio
  else if endsWithL "document omitted".data l then some .document
  else if l == "sticker omitted".data then some .sticker
  else if endsWithL "Contact card omitted".data l then some .contact
  else if endsWithL "GIF omitted".data l then some .gif
  else if "POLL:".data.isPrefixOf l then some .poll
  else none

/-- Result record of `getMessageStatus`. -/
structure StatusResult where
  status : MessageStatus
  content : Option Str
deriving DecidableEq, Repr

/-- Source regex `statusRegexes.deleted`. -/
def deletedSuffix : Str := "This message was deleted.".data
/-- Source regex `statusRegexes.deletedAsAdmin`. -/
def deletedAsAdminSuffix : Str := "You deleted this message as admin.".data
/-- Source regex `statusRegexes.edited`. -/
def editedSuffix : Str := " <This message was edited>".data

/-- Source `getMessageStatus`: the three mutually exclusive suffix
checks; the edited marker is removed and the remainder trimmed. -/
def getMessageStatus : Option Str → StatusResult
  | none => ⟨.active, none⟩
  | some content =>
    if endsWithL deletedSuffix content then ⟨.deleted, none⟩
    else if endsWithL deletedAsAdminSuffix content then ⟨.deleted, none⟩
    else if endsWithL editedSuffix content then
      ⟨.edited, some (jsTrim (content.take (content.length - editedSuffix.length)))⟩
    else ⟨.active, some content⟩

/-- Duration units of the call-info regex alternation `(sec|min|hr)`. -/
inductive DurationUnit where
  | sec | minute | hour
deriving DecidableEq, Repr

/-- The duration conversion of `getCallInfo` (`sec` times 1, `min`
times 60, `hr` times 3600). -/
def durationFromUnit (u : DurationUnit) (n : ℕ) : ℤ :=
  match u with
  | .sec => n
  | .minute => n * 60
  | .hour => n * 3600

/-- Try to match `(\d+) (sec|min|hr) • (\d+) joined` at the head of the
list; on success return the captures and the remainder after the match.
Greedy `\d+` followed by a space is deterministic: a shorter digit run
is followed by a digit, never by a space. -/
def matchCallInfoAt (l : Str) : Option ((ℕ × DurationUnit × ℕ) × Str) :=
  let ds := l.takeWhile isDigitChar
  if ds.isEmpty then none
  else
    match l.drop ds.length with
    | ' ' :: r2 =>
      let unitOpt : Option (DurationUnit × Str) :=
        if "sec".data.isPrefixOf r2 then some (.sec, r2.drop 3)
        else if "min".data.isPrefixOf r2 then some (.minute, r2.drop 3)
        else if "hr".data.isPrefixOf r2 then some (.hour, r2.drop 2)
        else none
      match unitOpt with
      | some (u, r3) =>
        if " • ".data.isPrefixOf r3 then
          let r4 := r3.drop 3
          let js := r4.takeWhile isDigitChar
          if js.isEmpty then none
          else if " joined".data.isPrefixOf (r4.drop js.length) then
            some ((parseNatDigits ds, u, parseNatDigits js),
                  (r4.drop js.length).drop " joined".length)
          else none
        else none
      | none => none
    | _ => none

/-- Leftmost match of the unanchored probe regex
`/(\d+) (sec|min|hr) • (\d+) joined/` (source `infoCheckRegex`). -/
def scanCallInfo : Str → Option (ℕ × DurationUnit × ℕ)
  | [] => none
  | c :: rest =>
    match matchCallInfoAt (c :: rest) with
    | some (r, _) => some r
    | none => scanCallInfo rest

/-- Model of `test` for the end-anchored call regexes
`/<lead>(\d+) (sec|min|hr) • (\d+) joined$/`: some position starts with
the lead and the info pattern consumes the rest of the string. -/
def callSuffixTest (lead : Str) : Str → Bool
  | [] => false
  | c :: rest =>
    (lead.isPrefixOf (c :: rest) &&
      (match matchCallInfoAt ((c :: rest).drop lead.length) with
       | some (_, rem) => rem.isEmpty
       | none => false)) ||
    callSuffixTest lead rest

/-- Source `getCallInfo`: started-call patterns first (no details), then
the five end-anchored call patterns sharing the parsed info probe.  When
the probe finds no match the JS code builds a NaN duration, but every
branch that uses it requires a successful probe, so that case is
unreachable and modelled as `none`. -/
def getCallInfo : Option Str → Option CallInfo
  | none => none
  | some content =>
    if endsWithCharBefore " started a video call".data content then
      some ⟨.video, none, none, none⟩
    else if endsWithCharBefore " started a call".data content then
      some ⟨.voice, none, none, none⟩
    else
      let parsed := scanCallInfo content
      let joined : Option ℤ :=
        match parsed with
        | some (_, _, j) => if j = 0 then none else some j
        | none => none
      let duration : Option ℤ :=
        match parsed with
        | some (d, u, _) => some (durationFromUnit u d)
        | none => none
      if callSuffixTest "Missed video call. ".data content then
        some ⟨.video, some true, joined, duration⟩
      else if callSuffixTest "Missed voice call. ".data content then
        some ⟨.voice, some true, joined, duration⟩
      else if callSuffixTest "Video call. ".data content then
        some ⟨.video, some false, joined, duration⟩
      else if callSuffixTest "Call. ".data content then
        some ⟨.voice, some false, joined, duration⟩
      else if callSuffixTest "Voice call. ".data content then
        some ⟨.voice, some false, joined, duration⟩
      else none

/-- Index just past the last newline of the maximal whitespace run at
the head of `l`, when that run contains a newline (the committed
`\s*\n` split of the poll regex). -/
def wsThroughLastNewline (l : Str) : Option ℕ :=
  let w := l.takeWhile isWS
  match (w.reverse.findIdx? fun c => c == '\n') with
  | some j => some (w.length - j)
  | none => none

/-- Try to match one `\n(?:OPTION: ([^(]+) \((\d+) votes\))\s*` group at
the head, returning the remainder. -/
def matchOptionGroup (l : Str) : Option Str :=
  match l with
  | '\n' :: r =>
    if "OPTION: ".data.isPrefixOf r then
      let r1 := r.drop "OPTION: ".length
      let run := r1.takeWhile fun c => !(c == '(')
      if decide (2 ≤ run.length) && endsWithL [' '] run then
        match r1.drop run.length with
        | '(' :: r2 =>
          let ds := r2.takeWhile isDigitChar
          if ds.isEmpty then none
          else if " votes)".data.isPrefixOf (r2.drop ds.length) then
            some ((r2.drop ds.length).drop " votes)".length |>.dropWhile isWS)
          else none
        | _ => none
      else none
    else none
  | _ => none

/-- Try the whole poll regex
`/POLL:\s*\n([^\n]+)(?:\n(?:OPTION: ([^(]+) \((\d+) votes\))\s*)+/`
anchored at the head of `l`; return the question capture.  The regex
engine's backtracking across the whitespace run is not modelled (no
verified property depends on the poll payload); the committed
greedy-split reading is used.  One option group witnesses the trailing
`+`; further repetitions affect neither success nor the capture. -/
def tryPollAt (l : Str) : Option Str :=
  if "POLL:".data.isPrefixOf l then
    let r := l.drop 5
    match wsThroughLastNewline r with
    | some k =>
      let r2 := r.drop k
      let q := r2.takeWhile fun c => !(c == '\n')
      if q.isEmpty then none
      else
        let rest := r2.drop q.length
        match matchOptionGroup rest with
        | some _ => some q
        | none => none
    | none => none
  else none

/-- Leftmost position where the poll regex matches (model of
`pollRegex.exec`). -/
def scanPoll : Str → Option Str
  | [] => none
  | c :: rest =>
    match tryPollAt (c :: rest) with
    | some q => some q
    | none => scanPoll rest

/-- Try one option-regex match `/‎?OPTION: ([^(]+) \((\d+) votes\)/` at
the head; return the captures and the remainder after the match. -/
def matchOptionAt (l : Str) : Option ((Str × ℕ) × Str) :=
  let l1 := if l.head? == some '‎' then l.drop 1 else l
  if "OPTION: ".data.isPrefixOf l1 then
    let r1 := l1.drop "OPTION: ".length
    let run := r1.takeWhile fun c => !(c == '(')
    if decide (2 ≤ run.length) && endsWithL [' '] run then
      match r1.drop run.length with
      | '(' :: r2 =>
        let ds := r2.takeWhile isDigitChar
        if ds.isEmpty then none
        else if " votes)".data.isPrefixOf (r2.drop ds.length) then
          some ((run.dropLast, parseNatDigits ds),
                (r2.drop ds.length).drop " votes)".length)
        else none
      | _ => none
    else none
  else none

/-- Global scan collecting all option-regex matches, with fuel (the
remainder after a match is strictly shorter). -/
def scanOptionsAux : ℕ → Str → List (Str × ℕ)
  | 0, _ => []
  | _, [] => []
  | fuel + 1, c :: rest =>
    match matchOptionAt (c :: rest) with
    | some (r, rem) => r :: scanOptionsAux fuel rem
    | none => scanOptionsAux fuel rest

/-- All option-regex matches in order of appearance. -/
def scanOptions (l : Str) : List (Str × ℕ) :=
  scanOptionsAux l.length l

/-- Source `parsePoll`: question from the first poll-regex match,
options from a global scan; option labels are trimmed. -/
def parsePoll (content : Str) : Option PollInfo :=
  match scanPoll content with
  | none => none
  | some q =>
    some ⟨jsTrim q, (scanOptions content).map fun p => ⟨jsTrim p.1, p.2⟩⟩

/-- The mention regexes `/@(994\d{9})/g` etc.: a country prefix and the
number of following digits. -/
def mentionPatterns : List (Str × ℕ) :=
  [("994".data, 9), ("79".data, 9), ("48".data, 9), ("39".data, 10), ("36".data, 9)]

/-- Try one mention-regex match at the head: `@`, the country prefix,
then exactly `nd` digits; returns the full match text and remainder. -/
def matchMentionAt (pre : Str) (nd : ℕ) (l : Str) : Option (Str × Str) :=
  match l with
  | '@' :: r =>
    if pre.isPrefixOf r then
      let r2 := r.drop pre.length
      let ds := r2.take nd
      if decide (ds.length = nd) && ds.all isDigitChar then
        some ('@' :: (pre ++ ds), r2.drop nd)
      else none
    else none
  | _ => none

/-- Fuelled global scan for one mention pattern (model of
`content.match(regex)` with the global flag: all full match texts). -/
def scanMentionsAux (pre : Str) (nd : ℕ) : ℕ → Str → List Str
  | 0, _ => []
  | _, [] => []
  | fuel + 1, c :: rest =>
    match matchMentionAt pre nd (c :: rest) with
    | some (m, rem) => m :: scanMentionsAux pre nd fuel rem
    | none => scanMentionsAux pre nd fuel rest

/-- All matches of one mention pattern, in order. -/
def scanMentions (pre : Str) (nd : ℕ) (l : Str) : List Str :=
  scanMentionsAux pre nd l.length l

/-- Source `detectMentions`: for each pattern, `content.match(regex)`;
a non-null result is destructured as `const [, ...numbers] = matches`,
which discards the first match text, and the rest are trimmed and
accumulated. -/
def detectMentions : Option Str → List Str
  | none => []
  | some content =>
    mentionPatterns.foldl
      (fun mentions p =>
        match scanMentions p.1 p.2 content with
        | [] => mentions
        | _ :: numbers => mentions ++ numbers.map jsTrim)
      []

/-- Source `parseContent`: system filter, ordered type detection,
status extraction, call detection (forcing `type = call`), poll parsing
(only when the type is poll) and mention detection. -/
def parseContent (raw : Str) : Option ContentInfo :=
  if systemTest raw then none
  else
    let found := findType raw
    let type0 := found.getD .text
    let messageContent : Option Str := if found.isSome then none else some raw
    let sr := getMessageStatus messageContent
    let callInfo := getCallInfo sr.content
    let type1 := if callInfo.isSome then ContentType.call else type0
    let pollInfo := if type1 = ContentType.poll then parsePoll raw else none
    let mentions := detectMentions sr.content
    some ⟨type1, if callInfo.isSome then none else sr.content, sr.status,
          callInfo, pollInfo, mentions⟩

/-! ### Classifier lemmas -/

theorem findType_ne_call (l : Str) : findType l ≠ some ContentType.call := by
  unfold findType
  split_ifs <;> simp

theorem getMessageStatus_deleted_content (mc : Option Str)
    (h : (getMessageStatus mc).status = MessageStatus.deleted) :
    (getMessageStatus mc).content = none := by
  cases mc with
  | none => simp [getMessageStatus] at h
  | some c =>
    simp only [getMessageStatus] at h ⊢
    split_ifs at h ⊢ <;> simp_all

theorem parseContent_shape (raw : Str) (ci : ContentInfo)
    (h : parseContent raw = some ci) :
    (ci.call ≠ none ↔ ci.type = ContentType.call) ∧
    (ci.poll ≠ none → ci.type = ContentType.poll) ∧
    (ci.status = MessageStatus.deleted → ci.content = none) ∧
    (ci.type ≠ ContentType.text → ci.content = none) := by
  rw [parseContent] at h
  split at h
  · exact absurd h (by simp)
  · rcases hf : findType raw with _ | t
    · rcases hc : getCallInfo (getMessageStatus (some raw)).content with _ | c
      · simp only [hf, Option.isSome_none, Bool.false_eq_true, if_false,
          Option.getD_none, hc, Option.some.injEq] at h
        subst h
        constructor
        · simp
        constructor
        · simp
        constructor
        · exact fun hd => getMessageStatus_deleted_content _ hd
        · simp
      · simp only [hf, Option.isSome_none, Bool.false_eq_true, if_false,
          Option.getD_none, hc, Option.isSome_some, if_true, Option.some.injEq] at h
        subst h
        simp
    · simp only [hf, Option.isSome_some, if_true, Option.getD_some,
        getMessageStatus, getCallInfo, Option.isSome_none, Bool.false_eq_true,
        if_false, Option.some.injEq] at h
      subst h
      have ht : t ≠ ContentType.call := fun he => findType_ne_call raw (he ▸ hf)
      constructor
      · simp [ht]
      constructor
      · by_cases hp : t = ContentType.poll <;> simp [hp]
      constructor
      · simp
      · simp

/-- C4: for every raw message string on which the classifier returns a
ContentInfo, `call` is non-null iff the type is call, a non-null `poll`
forces type poll, and `content` is null whenever the status is deleted
or the type is a non-text placeholder (media types, polls, calls). -/
theorem parseContent_invariants (raw : Str) (ci : ContentInfo)
    (h : parseContent raw = some ci) :
    (ci.call ≠ none ↔ ci.type = ContentType.call) ∧
    (ci.poll ≠ none → ci.type = ContentType.poll) ∧
    (ci.status = MessageStatus.deleted → ci.content = none) ∧
    (ci.type ≠ ContentType.text → ci.content = none) :=
  parseContent_shape raw ci h

/-- Witness for C4 at a concrete classified string. -/
theorem parseContent_invariants_witness :
    (ContentInfo.call ⟨.text, some "hello there".data, .active, none, none, []⟩ ≠ none ↔
      ContentInfo.type ⟨.text, some "hello there".data, .active, none, none, []⟩ = ContentType.call) ∧
    (ContentInfo.poll ⟨.text, some "hello there".data, .active, none, none, []⟩ ≠ none →
      ContentInfo.type ⟨.text, some "hello there".data, .active, none, none, []⟩ = ContentType.poll) ∧
    (ContentInfo.status ⟨.text, some "hello there".data, .active, none, none, []⟩ = MessageStatus.deleted →
      ContentInfo.content ⟨.text, some "hello there".data, .active, none, none, []⟩ = none) ∧
    (ContentInfo.type ⟨.text, some "hello there".data, .active, none, none, []⟩ ≠ ContentType.text →
      ContentInfo.content ⟨.text, some "hello there".data, .active, none, none, []⟩ = none) :=
  parseContent_invariants "hello there".data
    ⟨.text, some "hello there".data, .active, none, none, []⟩ (by decide)

/-- The missed-video-call scenario string of the spec. -/
def missedVideoCallStr : Str := "Missed video call. 5 min • 3 joined".data

/-- C7: classifying "Missed video call. 5 min • 3 joined" yields a call
message with video type, missed, duration 300 seconds (5 min times 60),
3 joined and null content; in general a successful call match forces
type call and clears content, and durations convert by sec times 1, min
times 60, hr times 3600. -/
theorem missedVideoCall_scenario :
    parseContent missedVideoCallStr =
      some ⟨.call, none, .active, some ⟨.video, some true, some 3, some 300⟩, none, []⟩ ∧
    (∀ (raw : Str) (ci : ContentInfo), parseContent raw = some ci →
      ci.call ≠ none → ci.type = ContentType.call ∧ ci.content = none) ∧
    (∀ n : ℕ, durationFromUnit .sec n = (n : ℤ) ∧
      durationFromUnit .minute n = (n : ℤ) * 60 ∧
      durationFromUnit .hour n = (n : ℤ) * 3600) := by
  refine ⟨by decide, fun raw ci h hc => ?_, fun n => ⟨rfl, rfl, rfl⟩⟩
  have hs := parseContent_shape raw ci h
  have htype := hs.1.mp hc
  exact ⟨htype, hs.2.2.2 (by rw [htype]; intro he; cases he)⟩

/-- Witness for C7 instantiating the universally quantified parts. -/
theorem missedVideoCall_scenario_witness :
    (ContentInfo.type ⟨.call, none, .active, some ⟨.video, some true, some 3, some 300⟩, none, []⟩ =
        ContentType.call ∧
      ContentInfo.content ⟨.call, none, .active, some ⟨.video, some true, some 3, some 300⟩, none, []⟩ =
        none) ∧
    durationFromUnit .minute 5 = (5 : ℤ) * 60 :=
  ⟨missedVideoCall_scenario.2.1 missedVideoCallStr
      ⟨.call, none, .active, some ⟨.video, some true, some 3, some 300⟩, none, []⟩
      (by decide) (by decide),
    (missedVideoCall_scenario.2.2 5).2.1⟩

/-- A message consisting of exactly one mention marker occurrence. -/
def mentionOnlyStr : Str := "@994123456789".data

/-- C8 failing input: the mention pattern occurs exactly once in the
string (its global match list is the singleton full-match text), yet
classification returns an empty mentions list — the destructuring
`const [, ...numbers] = matches` discards the first match of each
pattern. -/
theorem detectMentions_drops_first :
    scanMentions "994".data 9 mentionOnlyStr = [mentionOnlyStr] ∧
    parseContent mentionOnlyStr =
      some ⟨.text, some mentionOnlyStr, .active, none, none, []⟩ := by
  exact ⟨by decide, by decide⟩

/-! ## Calendar model

JS `Date` local-time calendar arithmetic is modelled over a proleptic
Gregorian calendar with local time identified with UTC (no DST), using
the standard civil-from-days / days-from-civil conversions. -/

/-- Milliseconds per civil day. -/
def dayMs : ℤ := 86400000

/-- Days since 1970-01-01 to (year, month 1-12, day); the day component
may lie outside its month, in which case the date normalizes linearly,
exactly as JS `MakeDay` does. -/
def daysFromCivil (y m d : ℤ) : ℤ :=
  let y1 := if m ≤ 2 then y - 1 else y
  let era := y1.fdiv 400
  let yoe := y1 - era * 400
  let mp := if 2 < m then m - 3 else m + 9
  let doy := (153 * mp + 2).fdiv 5 + d - 1
  let doe := yoe * 365 + yoe.fdiv 4 - yoe.fdiv 100 + doy
  era * 146097 + doe - 719468

/-- Inverse of `daysFromCivil`: (year, month 1-12, day 1-31) of a day
number. -/
def civilFromDays (z0 : ℤ) : ℤ × ℤ × ℤ :=
  let z := z0 + 719468
  let era := z.fdiv 146097
  let doe := z - era * 146097
  let yoe := (doe - doe.fdiv 1460 + doe.fdiv 36524 - doe.fdiv 146096).fdiv 365
  let y := yoe + era * 400
  let doy := doe - (365 * yoe + yoe.fdiv 4 - yoe.fdiv 100)
  let mp := (5 * doy + 2).fdiv 153
  let d := doy - (153 * mp + 2).fdiv 5 + 1
  let m := if mp < 10 then mp + 3 else mp - 9
  (if m ≤ 2 then y + 1 else y, m, d)

/-- Weekday abbreviations in `toDateString` order (index 0 = Sunday). -/
def weekdayNames : List Str :=
  ["Sun".data, "Mon".data, "Tue".data, "Wed".data, "Thu".data, "Fri".data, "Sat".data]

/-- Month abbreviations used by `toDateString`. -/
def monthNames3 : List Str :=
  ["Jan".data, "Feb".data, "Mar".data, "Apr".data, "May".data, "Jun".data,
   "Jul".data, "Aug".data, "Sep".data, "Oct".data, "Nov".data, "Dec".data]

/-- Decimal rendering of a natural number. -/
def natToChars (n : ℕ) : Str := Nat.toDigits 10 n

/-- Two-digit zero-padded rendering (day of month in `toDateString`). -/
def pad2 (n : ℤ) : Str :=
  if n < 10 then '0' :: natToChars n.toNat else natToChars n.toNat

/-- Model of JS `Date.prototype.toDateString`: "Www Mmm DD YYYY" for
the local calendar date of the instant. -/
def toDateString (t : ℤ) : Str :=
  let z := t.fdiv dayMs
  let c := civilFromDays z
  let wd := ((z + 4).emod 7).toNat
  (weekdayNames.getD wd []) ++ (' ' :: (monthNames3.getD (c.2.1 - 1).toNat []))
    ++ (' ' :: pad2 c.2.2) ++ (' ' :: natToChars c.1.toNat)

/-- Split a character list at every occurrence of a separator character
(model of JS `split` with a one-character separator). -/
def splitOnChar (sep : Char) : Str → List Str
  | [] => [[]]
  | c :: rest =>
    let r := splitOnChar sep rest
    if c == sep then [] :: r
    else
      match r with
      | [] => [[c]]
      | l :: ls => (c :: l) :: ls

/-- Model of `new Date(s).getTime()` for strings produced by
`toDateString` (the only strings the streak code parses back): local
midnight of the rendered calendar date. -/
def parseDateStringMs (s : Str) : ℤ :=
  match splitOnChar ' ' s with
  | [_, mon, dd, yyyy] =>
    let m := (monthNames3.indexOf mon : ℕ) + 1
    daysFromCivil (parseNatDigits yyyy) (m : ℤ) (parseNatDigits dd) * dayMs
  | _ => 0

/-! ## Stats engine (src/utils/stats.ts) -/

/-- Insertion-order deduplication (model of `[...new Set(xs)]`). -/
def dedupKeepFirst {α : Type} [BEq α] (l : List α) : List α :=
  l.foldl (fun acc a => if acc.contains a then acc else acc ++ [a]) []

/-- JS default string comparison (code-unit lexicographic), as used by
`uniqueDates.sort()`. -/
def lexLe : Str → Str → Bool
  | [], _ => true
  | _ :: _, [] => false
  | a :: as, b :: bs => if a < b then true else if b < a then false else lexLe as bs

/-- Propositional form of `lexLe` for the stable sort. -/
def lexLeP (a b : Str) : Prop := lexLe a b = true

instance : DecidableRel lexLeP :=
  fun a b => inferInstanceAs (Decidable (lexLe a b = true))

/-- Ascending timestamp order, as used by
`messages.sort((a, b) => a.timestamp.getTime() - b.timestamp.getTime())`.
JS `Array.prototype.sort` is stable, so any stable sort is an exact
model; `List.insertionSort` is stable. -/
def tsLeP (a b : Message) : Prop := a.timestamp ≤ b.timestamp

instance : DecidableRel tsLeP :=
  fun a b => inferInstanceAs (Decidable (a.timestamp ≤ b.timestamp))

/-- Result of `calculateStreaks`. -/
structure StreakResult where
  longestStreak : ℕ
  currentStreak : ℕ
deriving DecidableEq, Repr

/-- One iteration of the forward streak loop.  The source computes
`dayDiff = (curr - prev) / 86400000` on midnight instants and compares
it to 1; over exact arithmetic this equals comparing the millisecond
difference to `dayMs` (see `dayDiff_eq_one_iff`). -/
def streakWalkStep (acc : ℕ × ℕ) (pair : Str × Str) : ℕ × ℕ :=
  let (longest, temp) := acc
  let (prev, curr) := pair
  if !prev.isEmpty && !curr.isEmpty then
    if parseDateStringMs curr - parseDateStringMs prev = dayMs then (longest, temp + 1)
    else (max longest temp, 1)
  else (longest, temp)

/-- The backward current-streak loop: counts adjacent one-day gaps from
the end until the first other gap (`break`); pairs with an empty string
are skipped, as in the source guard. -/
def countBackRun : List (Str × Str) → ℕ
  | [] => 0
  | (curr, next) :: rest =>
    if !curr.isEmpty && !next.isEmpty then
      if parseDateStringMs next - parseDateStringMs curr = dayMs then 1 + countBackRun rest
      else 0
    else countBackRun rest

/-- Source `Stats.calculateStreaks`: sort messages chronologically, map
them to `toDateString` strings, deduplicate, then sort those strings
with the default (lexicographic) comparator and walk adjacent pairs;
the current streak counts only when the (lexicographically) last date
is at most one day before now. -/
def calculateStreaks (now : ℤ) (messages : List Message) : StreakResult :=
  if messages.length = 0 then ⟨0, 0⟩
  else
    let sorted := List.insertionSort tsLeP messages
    let dates := sorted.map fun m => toDateString m.timestamp
    let uniqueDates := List.insertionSort lexLeP (dedupKeepFirst dates)
    let pairs := uniqueDates.zip uniqueDates.tail
    let walked := pairs.foldl streakWalkStep (0, 1)
    let longestStreak := max walked.1 walked.2
    let currentStreak :=
      match uniqueDates.getLast? with
      | none => 0
      | some lastDate =>
        if lastDate.isEmpty then 0
        else if parseDateStringMs (toDateString now) - parseDateStringMs lastDate ≤ dayMs then
          1 + countBackRun pairs.reverse
        else 0
    ⟨longestStreak, currentStreak⟩

/-- Bridge: the source compares `(curr - prev) / 86400000 === 1`; over
exact arithmetic this is the millisecond comparison used in the
embedding. -/
theorem dayDiff_eq_one_iff (a b : ℤ) :
    ((b - a : ℤ) : ℚ) / 86400000 = 1 ↔ b - a = 86400000 := by
  rw [div_eq_one_iff_eq (by norm_num)]
  exact_mod_cast Iff.rfl

/-- Bridge for the `daysSinceLastMessage <= 1` comparison. -/
theorem dayDiff_le_one_iff (a b : ℤ) :
    ((b - a : ℤ) : ℚ) / 86400000 ≤ 1 ↔ b - a ≤ 86400000 := by
  rw [div_le_one (by norm_num)]
  exact_mod_cast Iff.rfl

/-! ## Rankings (src/utils/stats.ts `getRankings`)

The per-author value extracted via `getUserStats` and the
`config.rankingType` switch is abstracted as an association list of
(author, value) pairs: the ranking invariant is independent of the
valuation.  Sorting descending by value with the stable
`List.insertionSort` models the stable JS sort with comparator
`(a, b) => b.value - a.value`. -/

/-- Ranking entry (stats.ts `RankingEntry`). -/
structure RankingEntry where
  rank : ℕ
  author : Str
  value : ℚ
  percentage : ℚ
deriving Repr

/-- Descending-by-value comparison for the ranking sort. -/
def rankingLeDesc (a b : Str × ℚ) : Prop := b.2 ≤ a.2

instance : DecidableRel rankingLeDesc :=
  fun a b => inferInstanceAs (Decidable (b.2 ≤ a.2))

/-- Source `Stats.getRankings`: sort descending by value, assign
1-based ranks by sorted position, percentage of the total (0 when the
total is not positive), then truncate to the optional limit. -/
def getRankings (entries : List (Str × ℚ)) (limit : Option ℕ) : List RankingEntry :=
  let rankings := List.insertionSort rankingLeDesc entries
  let total := (rankings.map fun r => r.2).sum
  let full := rankings.enum.map fun p =>
    RankingEntry.mk (p.1 + 1) p.2.1 p.2.2 (if 0 < total then p.2.2 / total * 100 else 0)
  match limit with
  | none => full
  | some k => full.take k

/-! ## Time filtering (src/utils/stats.ts `getFilteredData`) -/

/-- Time period discriminator (stats.ts `TimePeriod`). -/
inductive TimePeriod where
  | total | lastYear | lastMonth | lastWeek | lastDay | custom
deriving DecidableEq, Repr

/-- Stats configuration (stats.ts `BaseConfig`); the activity-score and
grouping options are omitted as no verified property depends on them. -/
structure StatsConfig where
  timePeriod : TimePeriod
  customStartDate : Option ℤ := none
  customEndDate : Option ℤ := none
  includeDeleted : Bool := true
deriving DecidableEq, Repr

/-- JS `d.setDate(d.getDate() - k)`: subtract `k` civil days; exact
millisecond arithmetic in the DST-free model. -/
def setDateSub (t k : ℤ) : ℤ := t - k * dayMs

/-- JS `d.setFullYear(d.getFullYear() - n)`: same calendar date `n`
years earlier (Feb 29 normalizes forward, as in JS). -/
def subYearsMs (t n : ℤ) : ℤ :=
  let c := civilFromDays (t.fdiv dayMs)
  daysFromCivil (c.1 - n) c.2.1 c.2.2 * dayMs + t.emod dayMs

/-- JS `d.setMonth(d.getMonth() - n)`: same day-of-month `n` months
earlier, with month and day overflow normalizing as in JS `MakeDay`. -/
def subMonthsMs (t n : ℤ) : ℤ :=
  let c := civilFromDays (t.fdiv dayMs)
  let tm := c.1 * 12 + (c.2.1 - 1) - n
  daysFromCivil (tm.fdiv 12) (tm.emod 12 + 1) c.2.2 * dayMs + t.emod dayMs

/-- The message predicate of `Filter.where` for the composed
`{timestamp: {gte, lte}, message: {status: {neq: deleted}}}` filters
(field comparisons are inclusive; see filtering.ts
`evaluateFieldFilter`). -/
def evalTimeFilter (startDate endDate : Option ℤ) (includeDeleted : Bool)
    (m : Message) : Bool :=
  (match startDate with
   | none => true
   | some s => decide (s ≤ m.timestamp)) &&
  (match endDate with
   | none => true
   | some e => decide (m.timestamp ≤ e)) &&
  (includeDeleted || decide (m.message.status ≠ .deleted))

/-- Source `Stats.getFilteredData`: resolve the period into bounds and
delegate to the filter (the memoization cache is semantically
transparent and not modelled). -/
def getFilteredData (data : List Message) (now : ℤ) (config : StatsConfig) :
    List Message :=
  match config.timePeriod with
  | .total =>
    if config.includeDeleted then data
    else data.filter fun m => decide (m.message.status ≠ .deleted)
  | .lastYear => data.filter (evalTimeFilter (some (subYearsMs now 1)) none config.includeDeleted)
  | .lastMonth => data.filter (evalTimeFilter (some (subMonthsMs now 1)) none config.includeDeleted)
  | .lastWeek => data.filter (evalTimeFilter (some (setDateSub now 7)) none config.includeDeleted)
  | .lastDay => data.filter (evalTimeFilter (some (setDateSub now 1)) none config.includeDeleted)
  | .custom => data.filter (evalTimeFilter config.customStartDate config.customEndDate config.includeDeleted)

/-- Date range of `getOverallStats` (duration in days). -/
structure DateRange where
  start : ℤ
  stop : ℤ
  duration : ℚ
deriving Repr

/-- The scalar core of stats.ts `OverallStats`; the distribution,
histogram and fun-stats fields are presentation data not referenced by
any verified property and are omitted. -/
structure OverallStatsCore where
  totalMessages : ℕ
  totalUsers : ℕ
  totalPoints : ℚ
  averagePointsPerMessage : ℚ
  dateRange : DateRange
deriving Repr

/-- Source `Stats.getOverallStats`: an empty filtered window throws
(`Except.error` here); otherwise the aggregate record is built. -/
def getOverallStats (data : List Message) (now : ℤ) (config : StatsConfig) :
    Except String OverallStatsCore :=
  let filteredData := getFilteredData data now config
  if filteredData.length = 0 then
    .error "No data available for the specified time period"
  else
    let users := dedupKeepFirst (filteredData.map fun m => m.author)
    let totalPoints := (filteredData.map calcPoints).sum
    let sortedData := List.insertionSort tsLeP filteredData
    match sortedData.head?, sortedData.getLast? with
    | some first, some last =>
      .ok ⟨filteredData.length, users.length, totalPoints,
           totalPoints / (filteredData.length : ℚ),
           ⟨first.timestamp, last.timestamp,
            ((last.timestamp - first.timestamp : ℤ) : ℚ) / 86400000⟩⟩
    | _, _ => .error "No valid messages found for date range calculation"

/-! ## Activity windows (src/utils/stats.ts `checkActivity`) -/

/-- The week-range construction of `checkActivity`: for i = 0..3, the
window ends `7 i` days before now and starts 6 days before its end;
`unshift` puts the oldest window first. -/
def weekRanges (now : ℤ) : List (ℤ × ℤ) :=
  (List.range 4).foldl
    (fun acc i =>
      let stop := setDateSub now (7 * i)
      let start := setDateSub stop 6
      (start, stop) :: acc)
    []

/-- Source `weights = [1, 2, 3, 4]` (oldest week first). -/
def weekWeights : List ℕ := [1, 2, 3, 4]

/-- The week windows paired with their weights by index, as consumed by
the per-week loop of `checkActivity`. -/
def weightedWeekWindows (now : ℤ) : List ((ℤ × ℤ) × ℕ) :=
  (weekRanges now).zip weekWeights

/-! ### Streak evaluation (C2) -/

/-- A text message by one author at the given instant. -/
def mkStreakMsg (t : ℤ) : Message :=
  ⟨"Dave".data, t, ⟨.text, some "hi".data, .active, none, none, []⟩⟩

/-- Messages on exactly the calendar dates 2024-01-03 (a Wednesday),
2024-01-04 (Thursday) and 2024-01-05 (Friday). -/
def streakBugMessages : List Message :=
  [mkStreakMsg (daysFromCivil 2024 1 3 * dayMs + 9 * 3600000),
   mkStreakMsg (daysFromCivil 2024 1 4 * dayMs + 10 * 3600000),
   mkStreakMsg (daysFromCivil 2024 1 5 * dayMs + 11 * 3600000)]

/-- Now: 2024-01-10, noon. -/
def streakBugNow : ℤ := daysFromCivil 2024 1 10 * dayMs + 12 * 3600000

/-- C2 failing input: a user active exactly on the three consecutive
calendar dates Wed 2024-01-03, Thu 2024-01-04, Fri 2024-01-05.  The
code sorts the `toDateString` strings lexicographically, which orders
them "Fri ... , Thu ... , Wed ..." (weekday name first), so no adjacent
pair is one day apart and `longestStreak` is 1, not 3 as the claim
requires.  (The `currentStreak = 0` half of the claim does hold here:
the last active date is more than one day before now.) -/
theorem calculateStreaks_lexicographic_bug :
    calculateStreaks streakBugNow streakBugMessages = ⟨1, 0⟩ ∧
    (calculateStreaks streakBugNow streakBugMessages).longestStreak ≠ 3 := by
  constructor
  · decide
  · decide

/-! ### Ranking invariant (C3) -/

theorem sum_map_div_mul_hundred (l : List ℚ) (t : ℚ) :
    (l.map fun v => v / t * 100).sum = l.sum / t * 100 := by
  induction l with
  | nil => simp
  | cons x xs ih => simp [ih, add_div, add_mul]

/-- C3: for every result of `getRankings`, the rank at sorted position
i is i + 1 (so the ranks form the strictly increasing gap-free sequence
1, 2, 3, ... on any non-empty result, truncated or not); and whenever
the sum of all values is positive, the percentages over the full
un-truncated ranking list sum to exactly 100. -/
theorem getRankings_invariant :
    (∀ (entries : List (Str × ℚ)) (limit : Option ℕ) (i : ℕ)
        (h : i < (getRankings entries limit).length),
      ((getRankings entries limit).get ⟨i, h⟩).rank = i + 1) ∧
    (∀ entries : List (Str × ℚ),
      0 < (entries.map fun r => r.2).sum →
      ((getRankings entries none).map fun e => e.percentage).sum = 100) := by
  constructor
  · intro entries limit i h
    simp only [getRankings] at h ⊢
    cases limit with
    | none =>
      simp [List.get_eq_getElem, List.getElem_map, List.getElem_enum]
    | some k =>
      simp [List.get_eq_getElem, List.getElem_take, List.getElem_map, List.getElem_enum]
  · intro entries htot
    have hperm := List.perm_insertionSort rankingLeDesc entries
    have hsum :
        ((List.insertionSort rankingLeDesc entries).map fun r => r.2).sum =
          (entries.map fun r => r.2).sum := ((hperm.map fun r => r.2).sum_eq)
    simp only [getRankings]
    set rankings := List.insertionSort rankingLeDesc entries with hr
    set total := (entries.map fun r => r.2).sum with ht
    have htotr : (rankings.map fun r => r.2).sum = total := hsum
    have hif : ∀ v : ℚ,
        (if 0 < (rankings.map fun r => r.2).sum then v / (rankings.map fun r => r.2).sum * 100 else 0) =
          v / total * 100 := by
      intro v
      rw [htotr, if_pos htot]
    calc ((rankings.enum.map fun p =>
            RankingEntry.mk (p.1 + 1) p.2.1 p.2.2
              (if 0 < (rankings.map fun r => r.2).sum then
                p.2.2 / (rankings.map fun r => r.2).sum * 100 else 0)).map
            fun e => e.percentage).sum
        = (rankings.enum.map fun p => p.2.2 / total * 100).sum := by
          rw [List.map_map]
          exact congrArg _ (List.map_congr_left fun p _ => hif p.2.2)
      _ = ((rankings.enum.map Prod.snd).map fun r => r.2 / total * 100).sum := by
          rw [List.map_map]
          rfl
      _ = (rankings.map fun r => r.2 / total * 100).sum := by
          rw [List.enum_map_snd]
      _ = ((rankings.map fun r => r.2).map fun v => v / total * 100).sum := by
          rw [List.map_map]
          rfl
      _ = (rankings.map fun r => r.2).sum / total * 100 :=
          sum_map_div_mul_hundred _ _
      _ = 100 := by
          rw [htotr, div_self (ne_of_gt htot)]
          norm_num

/-- Witness for C3 at a one-entry ranking. -/
theorem getRankings_invariant_witness :
    ((getRankings [("a".data, (1 : ℚ))] none).get
        ⟨0, by simp [getRankings]⟩).rank = 0 + 1 ∧
    ((getRankings [("a".data, (1 : ℚ))] none).map fun e => e.percentage).sum = 100 :=
  ⟨getRankings_invariant.1 [("a".data, (1 : ℚ))] none 0 (by simp [getRankings]),
   getRankings_invariant.2 [("a".data, (1 : ℚ))] (by norm_num)⟩

/-! ### Empty-window rejection (C6) -/

/-- C6: whenever the filtered time window contains zero messages,
`getOverallStats` fails with the no-data error and never returns a
statistics record. -/
theorem getOverallStats_empty_window (data : List Message) (now : ℤ)
    (config : StatsConfig) (h : getFilteredData data now config = []) :
    getOverallStats data now config =
      .error "No data available for the specified time period" ∧
    ∀ s : OverallStatsCore, getOverallStats data now config ≠ .ok s := by
  have he : getOverallStats data now config =
      .error "No data available for the specified time period" := by
    simp only [getOverallStats, h]
    rfl
  exact ⟨he, fun s hs => by rw [he] at hs; cases hs⟩

/-- One message at instant 0. -/
def emptyWindowData : List Message := [sampleTextMsg]

/-- A custom window (100 ms to 200 ms) containing no message. -/
def emptyWindowConfig : StatsConfig := ⟨.custom, some 100, some 200, true⟩

/-- Witness for C6 at a concrete empty custom window. -/
theorem getOverallStats_empty_window_witness :
    getOverallStats emptyWindowData 0 emptyWindowConfig =
      .error "No data available for the specified time period" ∧
    ∀ s : OverallStatsCore, getOverallStats emptyWindowData 0 emptyWindowConfig ≠ .ok s :=
  getOverallStats_empty_window emptyWindowData 0 emptyWindowConfig (by decide)

/-! ### Activity windows (C9) -/

/-- C9 counterexample: with now = 0, the instant 20.5 days before now
(-1771200000 ms) lies within the 28 days preceding now (28 days =
2419200000 ms) but inside none of the four windows, so the windows do
not cover the 28 days preceding now and are not contiguous. -/
theorem checkActivity_windows_not_contiguous :
    ((-2419200000 : ℤ) ≤ -1771200000 ∧ (-1771200000 : ℤ) ≤ 0) ∧
    ∀ w ∈ weekRanges 0, ¬ (w.1 ≤ -1771200000 ∧ (-1771200000 : ℤ) ≤ w.2) := by
  decide

/-- C9 (amended): `checkActivity` builds exactly four windows, oldest
first with weights 1, 2, 3, 4 and the most recent ending at now, but
each window spans exactly 6 days (start = end - 6 days) and consecutive
windows are separated by a gap of exactly 1 day, so the windows are
pairwise disjoint yet not contiguous and cover only part of the 27 days
preceding now. -/
theorem checkActivity_windows_amended (now : ℤ) :
    weightedWeekWindows now =
      [((now - 27 * dayMs, now - 21 * dayMs), 1),
       ((now - 20 * dayMs, now - 14 * dayMs), 2),
       ((now - 13 * dayMs, now - 7 * dayMs), 3),
       ((now - 6 * dayMs, now), 4)] ∧
    ((now - 21 * dayMs) - (now - 27 * dayMs) = 6 * dayMs ∧
      (now - 14 * dayMs) - (now - 20 * dayMs) = 6 * dayMs ∧
      (now - 7 * dayMs) - (now - 13 * dayMs) = 6 * dayMs ∧
      now - (now - 6 * dayMs) = 6 * dayMs) ∧
    ((now - 20 * dayMs) - (now - 21 * dayMs) = dayMs ∧
      (now - 13 * dayMs) - (now - 14 * dayMs) = dayMs ∧
      (now - 6 * dayMs) - (now - 7 * dayMs) = dayMs) ∧
    (0 : ℤ) < dayMs := by
  refine ⟨?_, by ring_nf; norm_num, by ring_nf; norm_num, by norm_num [dayMs]⟩
  simp only [weightedWeekWindows, weekRanges, setDateSub, weekWeights,
    List.range_succ, List.range_zero, List.foldl, List.zip, List.zipWith]
  norm_num
  ring_nf
  norm_num

/-! ## Tokenizer and extractor (src/utils/message-parser.ts) -/

/-- Match a list of character predicates against successive characters;
on success return the remainder. -/
def matchShape : List (Char → Bool) → Str → Option Str
  | [], l => some l
  | _ :: _, [] => none
  | p :: ps, c :: cs => if p c then matchShape ps cs else none

/-- The fixed-width date-time group shape
`\d{2}\.\d{2}\.\d{2}, \d{2}:\d{2}:\d{2}` (18 characters). -/
def dateShape : List (Char → Bool) :=
  [isDigitChar, isDigitChar, (· == '.'), isDigitChar, isDigitChar, (· == '.'),
   isDigitChar, isDigitChar, (· == ','), (· == ' '),
   isDigitChar, isDigitChar, (· == ':'), isDigitChar, isDigitChar, (· == ':'),
   isDigitChar, isDigitChar]

/-- Source `TIMESTAMP_PATTERN.test`: the line starts with
`[\d{2}\.\d{2}\.\d{2}, \d{2}:\d{2}:\d{2}]`. -/
def tsPrefixTest (l : Str) : Bool :=
  match l with
  | '[' :: rest =>
    match matchShape dateShape rest with
    | some (']' :: _) => true
    | _ => false
  | _ => false

/-- One line of the tokenizer loop of `getSeparateMessages`: a line
whose trimmed form starts with the timestamp pattern flushes the
current message (trimmed, if non-blank) and starts a new one; any other
line is appended with a newline, or dropped while no message is open. -/
def tokenizeStep (acc : List Str × Str) (line : Str) : List Str × Str :=
  let (messages, current) := acc
  if tsPrefixTest (jsTrim line) then
    (if (jsTrim current).isEmpty then messages else messages ++ [jsTrim current], line)
  else
    (messages, if current.isEmpty then current else current ++ '\n' :: line)

/-- Source `getSeparateMessages`: split into lines, run the tokenizer
loop, flush the final message, and drop blank messages. -/
def getSeparateMessages (chat : Str) : List Str :=
  let lines := splitOnChar '\n' chat
  let acc := lines.foldl tokenizeStep ([], [])
  let messages := if (jsTrim acc.2).isEmpty then acc.1 else acc.1 ++ [jsTrim acc.2]
  messages.filter fun m => decide (0 < (jsTrim m).length)

/-- The three named capture groups of `MESSAGE_REGEX`. -/
structure MessageGroups where
  date : Str
  author : Str
  content : Str
deriving DecidableEq, Repr

/-- Model of `MESSAGE_REGEX`
`^\[(?<date>\d{2}\.\d{2}\.\d{2}, \d{2}:\d{2}:\d{2})\] (?<author>[^:]+): (?<content>[\s\S]*)$`.
The greedy `[^:]+` cannot cross a colon, so the author group is the
non-empty run up to the first colon after the bracket, which must be
followed by a space; the content group is the rest. -/
def matchMessageRegex (s : Str) : Option MessageGroups :=
  match s with
  | '[' :: rest =>
    match matchShape dateShape rest with
    | some (']' :: ' ' :: r2) =>
      let author := r2.takeWhile fun c => !(c == ':')
      if author.isEmpty then none
      else
        match r2.drop author.length with
        | ':' :: ' ' :: content => some ⟨rest.take 18, author, content⟩
        | _ => none
    | _ => none
  | _ => none

instance {ε α : Type} [DecidableEq ε] [DecidableEq α] : DecidableEq (Except ε α) :=
  fun a b =>
    match a, b with
    | .error e, .error f =>
      if h : e = f then isTrue (by rw [h]) else isFalse (by intro he; cases he; exact h rfl)
    | .ok x, .ok y =>
      if h : x = y then isTrue (by rw [h]) else isFalse (by intro he; cases he; exact h rfl)
    | .error _, .ok _ => isFalse (by intro he; cases he)
    | .ok _, .error _ => isFalse (by intro he; cases he)

/-- Extracted message record (message-parser.ts `MessageInfo`). -/
structure MessageInfo where
  author : Str
  content : Str
  timestamp : ℤ
deriving DecidableEq, Repr

/-- Model of `new Date(y, m0, d, h, mi, s).getTime()` (month 0-based);
out-of-range components normalize as in the JS `MakeDay`/`MakeTime`
algorithm, exactly reproduced by the linear civil-day arithmetic. -/
def mkDateMs (y m0 d h mi s : ℤ) : ℤ :=
  let ym := y + m0.fdiv 12
  let mn := m0.emod 12
  daysFromCivil ym (mn + 1) d * dayMs + h * 3600000 + mi * 60000 + s * 1000

/-- Model of `/^you$/i.test(author)`. -/
def isYouCI : Str → Bool
  | [y, o, u] =>
    (y == 'y' || y == 'Y') && (o == 'o' || o == 'O') && (u == 'u' || u == 'U')
  | _ => false

/-- Source `getAuthor`: the literal "you" (case-insensitive) is
replaced by the first configured self name when one is set (an empty
first name falls back to the original author). -/
def getAuthor (userNames : List Str) (author : Str) : Str :=
  if isYouCI author then
    match userNames with
    | [] => author
    | u :: _ => if u.isEmpty then author else u
  else author

/-- Fuelled split of a list at every occurrence of a (non-empty)
separator list, scanning left to right without overlap (model of JS
`split` with a multi-character separator). -/
def splitOnSubAux (sep : Str) : ℕ → Str → Str → List Str
  | 0, acc, l => [acc.reverse ++ l]
  | _ + 1, acc, [] => [acc.reverse]
  | fuel + 1, acc, c :: rest =>
    if sep.isPrefixOf (c :: rest) then
      acc.reverse :: splitOnSubAux sep fuel [] ((c :: rest).drop sep.length)
    else
      splitOnSubAux sep fuel (c :: acc) rest

/-- JS `s.split(sep)` for a non-empty separator. -/
def splitOnSub (sep s : Str) : List Str :=
  splitOnSubAux sep (s.length + 1) [] s

/-- Source `getMessageInfo`: match the message regex, split the date
group on ", ", "." and ":", validate that all six components are
non-empty, expand the two-digit year (< 50 maps to 2000+, else 1900+),
build the timestamp, normalize the author and trim the content.  The
JS destructurings take the leading elements of each split and the
falsy checks catch missing ones. -/
def getMessageInfo (userNames : List Str) (message : Str) : Except String MessageInfo :=
  match matchMessageRegex message with
  | none => .error "Invalid message format"
  | some g =>
    match splitOnSub ", ".data g.date with
    | datePart :: timePart :: _ =>
      if datePart.isEmpty || timePart.isEmpty then .error "Invalid date format in message"
      else
        match splitOnChar '.' datePart, splitOnChar ':' timePart with
        | day :: month :: year :: _, hour :: minute :: second :: _ =>
          if day.isEmpty || month.isEmpty || year.isEmpty ||
              hour.isEmpty || minute.isEmpty || second.isEmpty then
            .error "Invalid date format in message"
          else
            let yearN := parseNatDigits year
            let fullYear : ℤ := if yearN < 50 then 2000 + (yearN : ℤ) else 1900 + (yearN : ℤ)
            .ok ⟨getAuthor userNames (jsTrim g.author), jsTrim g.content,
                 mkDateMs fullYear ((parseNatDigits month : ℤ) - 1) (parseNatDigits day : ℕ)
                   (parseNatDigits hour : ℕ) (parseNatDigits minute : ℕ) (parseNatDigits second : ℕ)⟩
        | _, _ => .error "Invalid date format in message"
    | _ => .error "Invalid date format in message"

/-- Numeric value of a two-digit-character pair, as `parseInt` computes
it on a two-character digit string. -/
def twoDigitVal (c1 c2 : Char) : ℕ :=
  (c1.toNat - 48) * 10 + (c2.toNat - 48)

/-- A well-formed single-line message block built from its parts:
`[DD.MM.YY, HH:MM:SS] <author>: <content>`. -/
def renderBlock (d1 d2 m1 m2 y1 y2 h1 h2 n1 n2 s1 s2 : Char)
    (author content : Str) : Str :=
  '[' :: d1 :: d2 :: '.' :: m1 :: m2 :: '.' :: y1 :: y2 :: ',' :: ' ' ::
  h1 :: h2 :: ':' :: n1 :: n2 :: ':' :: s1 :: s2 :: ']' :: ' ' ::
  (author ++ ':' :: ' ' :: content)

/-! ### Character and trimming lemmas -/

theorem isDigitChar_lit_comma : isDigitChar ',' = false := by decide
theorem isDigitChar_lit_dot : isDigitChar '.' = false := by decide
theorem isDigitChar_lit_colon : isDigitChar ':' = false := by decide
theorem isDigitChar_lit_space : isDigitChar ' ' = false := by decide
theorem isDigitChar_lit_newline : isDigitChar '\n' = false := by decide
theorem isDigitChar_lit_lbrack : isDigitChar '[' = false := by decide
theorem isDigitChar_lit_rbrack : isDigitChar ']' = false := by decide

theorem beq_left_digit {a c : Char} (ha : isDigitChar a = false)
    (hc : isDigitChar c = true) : (a == c) = false := by
  cases h : a == c with
  | false => rfl
  | true =>
    rw [beq_iff_eq] at h
    subst h
    simp [hc] at ha

theorem beq_right_digit {a c : Char} (ha : isDigitChar a = false)
    (hc : isDigitChar c = true) : (c == a) = false := by
  cases h : c == a with
  | false => rfl
  | true =>
    rw [beq_iff_eq] at h
    subst h
    simp [ha] at hc

theorem newline_ne_digit {c : Char} (hc : isDigitChar c = true) :
    ('\n' : Char) ≠ c :=
  fun he => by rw [← he] at hc; exact absurd hc (by decide)

theorem jsTrim_nil : jsTrim [] = [] := rfl

theorem dropWhile_eq_self_of_jsTrim {l : Str} (h : jsTrim l = l) :
    l.dropWhile isWS = l ∧ l.reverse.dropWhile isWS = l.reverse := by
  have hlen1 : (l.dropWhile isWS).length ≤ l.length :=
    (List.dropWhile_suffix isWS).sublist.length_le
  have hlen2 : ((l.dropWhile isWS).reverse.dropWhile isWS).length ≤
      (l.dropWhile isWS).length := by
    have := (List.dropWhile_suffix (l := (l.dropWhile isWS).reverse) isWS).sublist.length_le
    simpa using this
  have hlen3 : l.length = ((l.dropWhile isWS).reverse.dropWhile isWS).length := by
    conv_lhs => rw [← h]
    simp [jsTrim]
  have e1 : l.dropWhile isWS = l :=
    (List.dropWhile_suffix isWS).sublist.eq_of_length (by omega)
  refine ⟨e1, ?_⟩
  rw [jsTrim, e1] at h
  have h2 := congrArg List.reverse h
  simpa using h2

theorem head_not_ws_of_dropWhile_eq {c : Char} {cs : Str}
    (h : (c :: cs).dropWhile isWS = c :: cs) : isWS c = false := by
  cases hw : isWS c with
  | false => rfl
  | true =>
    rw [List.dropWhile_cons, hw] at h
    simp only [if_true] at h
    have hlen := congrArg List.length h
    have hle : (cs.dropWhile isWS).length ≤ cs.length :=
      (List.dropWhile_suffix isWS).sublist.length_le
    simp at hlen
    omega

theorem jsTrim_eq_self_of_ends {l : Str}
    (h1 : ∃ c cs, l = c :: cs ∧ isWS c = false)
    (h2 : ∃ c cs, l.reverse = c :: cs ∧ isWS c = false) : jsTrim l = l := by
  obtain ⟨a, as, ha, hwa⟩ := h1
  obtain ⟨b, bs, hb, hwb⟩ := h2
  have e1 : l.dropWhile isWS = l := by
    rw [ha, List.dropWhile_cons, hwa]
    simp
  have e2 : l.reverse.dropWhile isWS = l.reverse := by
    rw [hb, List.dropWhile_cons, hwb]
    simp
  rw [jsTrim, e1, e2, List.reverse_reverse]

theorem splitOnChar_not_mem {sep : Char} {l : Str} (h : sep ∉ l) :
    splitOnChar sep l = [l] := by
  induction l with
  | nil => rfl
  | cons c cs ih =>
    rw [List.mem_cons, not_or] at h
    have hc : (c == sep) = false := by
      cases hb : c == sep with
      | false => rfl
      | true => rw [beq_iff_eq] at hb; exact absurd hb.symm h.1
    simp [splitOnChar, hc, ih h.2]

theorem takeWhile_not_colon {author : Str} (h : (':' : Char) ∉ author) (t : Str) :
    (author ++ ':' :: t).takeWhile (fun c => !(c == ':')) = author := by
  induction author with
  | nil => simp [List.takeWhile_cons]
  | cons a as ih =>
    rw [List.mem_cons, not_or] at h
    have ha : (a == ':') = false := by
      cases hb : a == ':' with
      | false => rfl
      | true => rw [beq_iff_eq] at hb; exact absurd hb.symm h.1
    simp [List.takeWhile_cons, ha, ih h.2]

theorem parseNatDigits_two (c1 c2 : Char) :
    parseNatDigits [c1, c2] = twoDigitVal c1 c2 := by
  simp [parseNatDigits, twoDigitVal, List.foldl]

/-! ### Tokenizer lemma -/

theorem getSeparateMessages_single {block : Str} (hnl : ('\n' : Char) ∉ block)
    (hts : tsPrefixTest block = true) (htr : jsTrim block = block)
    (hne : block ≠ []) : getSeparateMessages block = [block] := by
  unfold getSeparateMessages
  rw [splitOnChar_not_mem hnl]
  have hie : block.isEmpty = false := by
    cases block with
    | nil => exact absurd rfl hne
    | cons c cs => rfl
  have hlp : decide (0 < (jsTrim block).length) = true := by
    rw [htr]
    simp [List.length_pos, hne]
  simp [tokenizeStep, htr, hts, jsTrim_nil, hie, hlp, List.length_pos, hne]

/-! ### Round-trip (C5) -/

/-- C5 (amended): for a well-formed single-line message block whose
author token is non-empty, contains no colon or newline, carries no
surrounding whitespace and is not case-insensitively "you", and whose
content is non-empty with no newline and no surrounding whitespace,
tokenizing yields exactly the block and extracting the first token
reproduces the author, the content, and the timestamp instant denoted
by the block's date-time digits (two-digit year < 50 expanding to
2000+, else 1900+). -/
theorem extract_tokenize_roundtrip
    (d1 d2 m1 m2 y1 y2 h1 h2 n1 n2 s1 s2 : Char) (author content : Str)
    (userNames : List Str)
    (hd1 : isDigitChar d1 = true) (hd2 : isDigitChar d2 = true)
    (hd3 : isDigitChar m1 = true) (hd4 : isDigitChar m2 = true)
    (hd5 : isDigitChar y1 = true) (hd6 : isDigitChar y2 = true)
    (hd7 : isDigitChar h1 = true) (hd8 : isDigitChar h2 = true)
    (hd9 : isDigitChar n1 = true) (hd10 : isDigitChar n2 = true)
    (hd11 : isDigitChar s1 = true) (hd12 : isDigitChar s2 = true)
    (ha1 : author ≠ []) (ha2 : (':' : Char) ∉ author)
    (ha3 : ('\n' : Char) ∉ author) (ha4 : jsTrim author = author)
    (ha5 : isYouCI author = false)
    (hc1 : content ≠ []) (hc2 : ('\n' : Char) ∉ content)
    (hc3 : jsTrim content = content) :
    getSeparateMessages (renderBlock d1 d2 m1 m2 y1 y2 h1 h2 n1 n2 s1 s2 author content) =
      [renderBlock d1 d2 m1 m2 y1 y2 h1 h2 n1 n2 s1 s2 author content] ∧
    getMessageInfo userNames
        ((getSeparateMessages (renderBlock d1 d2 m1 m2 y1 y2 h1 h2 n1 n2 s1 s2 author content)).headI) =
      .ok ⟨author, content,
        mkDateMs
          (if twoDigitVal y1 y2 < 50 then 2000 + (twoDigitVal y1 y2 : ℤ)
           else 1900 + (twoDigitVal y1 y2 : ℤ))
          ((twoDigitVal m1 m2 : ℤ) - 1) (twoDigitVal d1 d2 : ℕ)
          (twoDigitVal h1 h2 : ℕ) (twoDigitVal n1 n2 : ℕ) (twoDigitVal s1 s2 : ℕ)⟩ := by
  -- the block is non-empty and newline-free
  have hne : renderBlock d1 d2 m1 m2 y1 y2 h1 h2 n1 n2 s1 s2 author content ≠ [] := by
    simp [renderBlock]
  have hnl : ('\n' : Char) ∉ renderBlock d1 d2 m1 m2 y1 y2 h1 h2 n1 n2 s1 s2 author content := by
    simp [renderBlock, List.mem_cons, List.mem_append, ha3, hc2,
      newline_ne_digit hd1, newline_ne_digit hd2, newline_ne_digit hd3,
      newline_ne_digit hd4, newline_ne_digit hd5, newline_ne_digit hd6,
      newline_ne_digit hd7, newline_ne_digit hd8, newline_ne_digit hd9,
      newline_ne_digit hd10, newline_ne_digit hd11, newline_ne_digit hd12]
  -- the block is trim-stable: it starts with a bracket and ends with
  -- the last character of the trim-stable non-empty content
  have htr : jsTrim (renderBlock d1 d2 m1 m2 y1 y2 h1 h2 n1 n2 s1 s2 author content) =
      renderBlock d1 d2 m1 m2 y1 y2 h1 h2 n1 n2 s1 s2 author content := by
    apply jsTrim_eq_self_of_ends
    · exact ⟨'[', _, rfl, by decide⟩
    · have hcr : content.reverse.dropWhile isWS = content.reverse :=
        (dropWhile_eq_self_of_jsTrim hc3).2
      obtain ⟨b, bs, hb⟩ : ∃ b bs, content.reverse = b :: bs := by
        cases hcrev : content.reverse with
        | nil => exact absurd (by simpa using hcrev) hc1
        | cons b bs => exact ⟨b, bs, rfl⟩
      have hwb : isWS b = false := head_not_ws_of_dropWhile_eq (hb ▸ hcr)
      have hsplitEq :
          renderBlock d1 d2 m1 m2 y1 y2 h1 h2 n1 n2 s1 s2 author content =
            ('[' :: d1 :: d2 :: '.' :: m1 :: m2 :: '.' :: y1 :: y2 :: ',' :: ' ' ::
              h1 :: h2 :: ':' :: n1 :: n2 :: ':' :: s1 :: s2 :: ']' :: ' ' ::
              (author ++ [':', ' '])) ++ content := by
        simp [renderBlock]
      refine ⟨b, bs ++ ('[' :: d1 :: d2 :: '.' :: m1 :: m2 :: '.' :: y1 :: y2 :: ',' :: ' ' ::
        h1 :: h2 :: ':' :: n1 :: n2 :: ':' :: s1 :: s2 :: ']' :: ' ' ::
        (author ++ [':', ' '])).reverse, ?_, hwb⟩
      rw [hsplitEq, List.reverse_append, hb]
      rfl
  -- the timestamp-pattern prefix test succeeds on the block
  have hts : tsPrefixTest (renderBlock d1 d2 m1 m2 y1 y2 h1 h2 n1 n2 s1 s2 author content) = true := by
    simp [renderBlock, tsPrefixTest, matchShape, dateShape,
      hd1, hd2, hd3, hd4, hd5, hd6, hd7, hd8, hd9, hd10, hd11, hd12]
  have hB : getSeparateMessages (renderBlock d1 d2 m1 m2 y1 y2 h1 h2 n1 n2 s1 s2 author content) =
      [renderBlock d1 d2 m1 m2 y1 y2 h1 h2 n1 n2 s1 s2 author content] :=
    getSeparateMessages_single hnl hts htr hne
  refine ⟨hB, ?_⟩
  rw [hB]
  show getMessageInfo userNames (renderBlock d1 d2 m1 m2 y1 y2 h1 h2 n1 n2 s1 s2 author content) = _
  -- the message regex parses the block into its three groups
  have hie : author.isEmpty = false := by
    cases author with
    | nil => exact absurd rfl ha1
    | cons a as => rfl
  have hm : matchMessageRegex (renderBlock d1 d2 m1 m2 y1 y2 h1 h2 n1 n2 s1 s2 author content) =
      some ⟨[d1, d2, '.', m1, m2, '.', y1, y2, ',', ' ', h1, h2, ':', n1, n2, ':', s1, s2],
            author, content⟩ := by
    simp [renderBlock, matchMessageRegex, matchShape, dateShape,
      hd1, hd2, hd3, hd4, hd5, hd6, hd7, hd8, hd9, hd10, hd11, hd12,
      takeWhile_not_colon ha2, hie, List.drop_left]
  -- split the date group on ", ", "." and ":"
  have hsplit : splitOnSub ", ".data
      [d1, d2, '.', m1, m2, '.', y1, y2, ',', ' ', h1, h2, ':', n1, n2, ':', s1, s2] =
      [[d1, d2, '.', m1, m2, '.', y1, y2], [h1, h2, ':', n1, n2, ':', s1, s2]] := by
    simp [splitOnSub, splitOnSubAux, List.isPrefixOf, beq_left_digit,
      isDigitChar_lit_comma, isDigitChar_lit_dot, isDigitChar_lit_colon,
      hd1, hd2, hd3, hd4, hd5, hd6, hd7, hd8, hd9, hd10, hd11, hd12]
  have hdate : splitOnChar '.' [d1, d2, '.', m1, m2, '.', y1, y2] =
      [[d1, d2], [m1, m2], [y1, y2]] := by
    simp [splitOnChar, beq_right_digit, isDigitChar_lit_dot,
      hd1, hd2, hd3, hd4, hd5, hd6]
  have htime : splitOnChar ':' [h1, h2, ':', n1, n2, ':', s1, s2] =
      [[h1, h2], [n1, n2], [s1, s2]] := by
    simp [splitOnChar, beq_right_digit, isDigitChar_lit_colon,
      hd7, hd8, hd9, hd10, hd11, hd12]
  simp [getMessageInfo, hm, hsplit, hdate, htime, ha4, ha5, getAuthor, hc3,
    parseNatDigits_two]

/-- Witness for C5 at a concrete block
`[01.01.24, 10:00:00] Alice: Hello`. -/
theorem extract_tokenize_roundtrip_witness :
    getSeparateMessages (renderBlock '0' '1' '0' '1' '2' '4' '1' '0' '0' '0' '0' '0'
        "Alice".data "Hello".data) =
      [renderBlock '0' '1' '0' '1' '2' '4' '1' '0' '0' '0' '0' '0' "Alice".data "Hello".data] ∧
    getMessageInfo []
        ((getSeparateMessages (renderBlock '0' '1' '0' '1' '2' '4' '1' '0' '0' '0' '0' '0'
          "Alice".data "Hello".data)).headI) =
      .ok ⟨"Alice".data, "Hello".data,
        mkDateMs
          (if twoDigitVal '2' '4' < 50 then 2000 + (twoDigitVal '2' '4' : ℤ)
           else 1900 + (twoDigitVal '2' '4' : ℤ))
          ((twoDigitVal '0' '1' : ℤ) - 1) (twoDigitVal '0' '1' : ℕ)
          (twoDigitVal '1' '0' : ℕ) (twoDigitVal '0' '0' : ℕ) (twoDigitVal '0' '0' : ℕ)⟩ :=
  extract_tokenize_roundtrip '0' '1' '0' '1' '2' '4' '1' '0' '0' '0' '0' '0'
    "Alice".data "Hello".data []
    (by decide) (by decide) (by decide) (by decide) (by decide) (by decide)
    (by decide) (by decide) (by decide) (by decide) (by decide) (by decide)
    (by decide) (by decide) (by decide) (by decide) (by decide)
    (by decide) (by decide) (by decide)

/-- A well-formed single-line block whose raw content carries a
trailing space. -/
def trailingSpaceBlock : Str := "[01.01.24, 10:00:00] Alice: hi ".data

/-- C5 counterexample: the block `[01.01.24, 10:00:00] Alice: hi ` is
well-formed under the header grammar with raw content "hi ", but the
pipeline trims: the tokenizer trims the block and the extractor trims
the content group, so extraction returns content "hi", which differs
from the original raw content "hi " — the round trip does not
reproduce raw content exactly. -/
theorem roundtrip_trims_content :
    (getSeparateMessages trailingSpaceBlock).headI =
      "[01.01.24, 10:00:00] Alice: hi".data ∧
    getMessageInfo [] ((getSeparateMessages trailingSpaceBlock).headI) =
      .ok ⟨"Alice".data, "hi".data, mkDateMs 2024 0 1 10 0 0⟩ ∧
    ("hi".data : Str) ≠ "hi ".data := by
  exact ⟨by decide, by decide, by decide⟩

end WpAnalyzer
